import Mathlib

/-!
Shallow embedding of the "main bus" fan-out pipeline (src/main.go).

A `MainBus` owns a resource name and a list of conveyors; a conveyor is a
Go channel of events, modelled as a bounded FIFO buffer together with its
capacity and a closed flag.  Channel operations follow the Go runtime
semantics: a send on a closed channel is a fatal panic, a send on a full
channel blocks, a receive on an empty open channel blocks, and a receive
on an empty closed channel makes a range loop terminate.  Go's `int` is
64-bit and wraps on overflow, and `make(chan ...)` enforces the runtime's
allocation limit; both are modelled explicitly.  Randomness of lane
selection (math/rand.Intn) is modelled by an oracle argument `r`, reduced
modulo the number of lanes, so that every value the generator can return
is covered.
-/

set_option maxHeartbeats 1000000

namespace MainBusGo

/-- The resource-name string used by the demo driver. -/
def iron : String := "iron"

/-- A second resource-name string used by the demo driver. -/
def copper : String := "copper"

/-- The Go runtime diagnostic for a send on a closed channel. -/
def sendOnClosedMsg : String := "send on closed channel"

/-- The Go runtime diagnostic for `make(chan T, n)` with a negative or
too-large `n`. -/
def makechanMsg : String := "makechan: size out of range"

/-- Allocation constants of the 64-bit Go runtime (linux/amd64): the heap
address space spans 48 bits. -/
def maxAlloc : Nat := 281474976710656

/-- Size in bytes of the runtime's hchan header on a 64-bit platform. -/
def hchanSize : Nat := 96

/-- Size in bytes of one `Event` value on a 64-bit platform: int (8) +
string header (16) + interface (16) + time.Time (24). -/
def eventSize : Nat := 64

/-- Increment of a Go `int` (64-bit, two's complement): it wraps at the
maximum int64, and is exact everywhere else.  Values produced by a real
Go program always lie in the int64 range; on model-only inputs outside
that range the increment is taken exact. -/
def incInt64 (x : Int) : Int :=
  if x = 9223372036854775807 then -9223372036854775808 else x + 1

/-- Structure `Event` from src/main.go: an item transported on the conveyors.
`Value any` is rendered as a type parameter, `Time` as an opaque tick. -/
structure Event (α : Type) where
  ID : Int
  Resource : String
  Value : α
  Time : Nat
deriving DecidableEq

/-- Type `Conveyor` from src/main.go is `chan Event`: a Go channel, i.e. a
bounded FIFO buffer with a fixed capacity and a closed flag. -/
structure Conveyor (α : Type) where
  cap : Nat
  buf : List (Event α)
  closed : Bool
deriving DecidableEq

/-- Structure `MainBus` from src/main.go: a resource name and its conveyors. -/
structure MainBus (α : Type) where
  Resource : String
  Conveyors : List (Conveyor α)
deriving DecidableEq

/-- Default conveyor used only as the `getD` fallback for indexing. -/
def dfltConveyor (α : Type) : Conveyor α := ⟨0, [], false⟩

/-- Operation `make(Conveyor, buffer)`: allocates a fresh empty channel.
The Go runtime's makechan panics when the requested size is negative or
when the buffer memory (element size times count) exceeds the allocatable
space left after the chan header. -/
def makeConveyor (α : Type) (buffer : Int) : Except String (Conveyor α) :=
  if buffer < 0 ∨ maxAlloc - hchanSize < eventSize * buffer.toNat then .error makechanMsg
  else .ok ⟨buffer.toNat, [], false⟩

/-- The allocation loop of `NewMainBus`: `k` iterations of
`append(bus.Conveyors, make(Conveyor, buffer))`. -/
def allocLanes (α : Type) (k : Nat) (buffer : Int) : Except String (List (Conveyor α)) :=
  match k with
  | 0 => .ok []
  | k + 1 =>
    match makeConveyor α buffer with
    | .error e => .error e
    | .ok c =>
      match allocLanes α k buffer with
      | .error e => .error e
      | .ok rest => .ok (c :: rest)

/-- Function `NewMainBus` from src/main.go: if `lines` is odd (Go `%` is truncated
division, `Int.tmod`) it is incremented with Go's wrapping 64-bit
increment, then `lines` conveyors are allocated (the Go loop
`for i := 0; i < lines; i++` runs `lines.toNat` times). -/
def NewMainBus (α : Type) (resource : String) (lines buffer : Int) :
    Except String (MainBus α) :=
  let l := if Int.tmod lines 2 ≠ 0 then incInt64 lines else lines
  match allocLanes α l.toNat buffer with
  | .ok cs => .ok ⟨resource, cs⟩
  | .error e => .error e

/-- Outcome of one channel-send step. -/
inductive SendResult (α : Type) where
  | ok (c : Conveyor α)
  | blocked
  | panicked (msg : String)
deriving DecidableEq

/-- Channel send `c <- ev`.  Panics if the channel is closed, blocks
if the buffer is full, otherwise appends at the back of the FIFO. -/
def send {α : Type} (ev : Event α) (c : Conveyor α) : SendResult α :=
  if c.closed then .panicked sendOnClosedMsg
  else if c.buf.length < c.cap then .ok { c with buf := c.buf ++ [ev] }
  else .blocked

/-- One receive step: `none` when the buffer is empty (the receiver would
block, or the range loop would terminate if the channel is closed). -/
def recv {α : Type} (c : Conveyor α) : Option (Event α × Conveyor α) :=
  match c.buf with
  | [] => none
  | e :: rest => some (e, { c with buf := rest })

/-- A sequence of sends into one conveyor, stopping at the first blocked
or panicking send. -/
def sendList {α : Type} (evs : List (Event α)) (c : Conveyor α) : SendResult α :=
  match evs with
  | [] => .ok c
  | ev :: rest =>
    match send ev c with
    | .ok c2 => sendList rest c2
    | .blocked => .blocked
    | .panicked m => .panicked m

/-- Lane selection: `rand.Intn n` returns some value in `[0, n)`; the
oracle `r` ranges over all naturals and is reduced modulo `n`, so every
lane index is realising some oracle value. -/
def pickLane (n : Nat) (r : Nat) : Nat := r % n

/-- Outcome of one `Produce` call. -/
inductive ProduceResult (α : Type) where
  | ok (bus : MainBus α)
  | blocked
  | panicked (msg : String)
deriving DecidableEq

/-- Method `Produce` from src/main.go: returns immediately if there are no
conveyors, otherwise sends the event to the randomly selected conveyor. -/
def Produce {α : Type} (bus : MainBus α) (r : Nat) (ev : Event α) : ProduceResult α :=
  if bus.Conveyors.length = 0 then .ok bus
  else
    match send ev (bus.Conveyors.getD (pickLane bus.Conveyors.length r) (dfltConveyor α)) with
    | .ok c => .ok ⟨bus.Resource, bus.Conveyors.set (pickLane bus.Conveyors.length r) c⟩
    | .blocked => .blocked
    | .panicked m => .panicked m

/-- A sequence of `Produce` calls, each with its own randomness-oracle
value, stopping at the first blocked or panicking call. -/
def produceSeq {α : Type} (bus : MainBus α) (l : List (Nat × Event α)) : ProduceResult α :=
  match l with
  | [] => .ok bus
  | (r, ev) :: rest =>
    match Produce bus r ev with
    | .ok b2 => produceSeq b2 rest
    | .blocked => .blocked
    | .panicked m => .panicked m

/-- Operation `close(c)`: marks the channel closed; buffered items stay. -/
def closeChan {α : Type} (c : Conveyor α) : Conveyor α := { c with closed := true }

/-- Method `Close` from src/main.go: closes every conveyor of the bus. -/
def Close {α : Type} (bus : MainBus α) : MainBus α :=
  { bus with Conveyors := bus.Conveyors.map closeChan }

/-- Method `Consume` from src/main.go: `for ev := range conveyor` handing each
event to the sink, modelled by the list of delivered events.  `fuel`
bounds the number of loop iterations examined: `some out` means the loop
terminated (returned) having delivered `out`; `none` means the loop was
still blocked or running when the fuel ran out. -/
def Consume {α : Type} (fuel : Nat) (c : Conveyor α) : Option (List (Event α)) :=
  match fuel with
  | 0 => none
  | fuel + 1 =>
    match c.buf with
    | [] => if c.closed then some [] else none
    | e :: rest => (Consume fuel { c with buf := rest }).map (fun out => e :: out)

/-- Extracts the bus from a successful construction (fallback is never
reached in the theorems below). -/
def getBus {α : Type} (e : Except String (MainBus α)) : MainBus α :=
  match e with
  | .ok b => b
  | .error _ => ⟨"", []⟩

/-! ### Construction lemmas -/

theorem allocLanes_ok (α : Type) (k : Nat) (buffer : Int) (h : 0 ≤ buffer)
    (h2 : eventSize * buffer.toNat ≤ maxAlloc - hchanSize) :
    allocLanes α k buffer = .ok (List.replicate k ⟨buffer.toNat, [], false⟩) := by
  induction k with
  | zero => rfl
  | succ k ih =>
    simp [allocLanes, makeConveyor, not_lt.mpr h, not_lt.mpr h2, ih, List.replicate_succ]

theorem NewMainBus_eq (α : Type) (resource : String) (lines buffer : Int)
    (hb : 0 ≤ buffer) (hb2 : eventSize * buffer.toNat ≤ maxAlloc - hchanSize) :
    NewMainBus α resource lines buffer =
      .ok ⟨resource,
        List.replicate (if Int.tmod lines 2 ≠ 0 then incInt64 lines else lines).toNat
          ⟨buffer.toNat, [], false⟩⟩ := by
  simp only [NewMainBus, allocLanes_ok α _ buffer hb hb2]

/-- Claim C9: for every negative requested lane count and every capacity
of any sign, NewMainBus still succeeds and returns a bus with zero lanes:
the odd-correction may increment the count but the allocation loop never
runs. -/
theorem C9_negative_lines (α : Type) (resource : String) (lines buffer : Int)
    (h : lines < 0) :
    NewMainBus α resource lines buffer = .ok ⟨resource, []⟩ := by
  have hinc : incInt64 lines = lines + 1 := by
    unfold incInt64
    rw [if_neg (by omega)]
  have h0 : (if Int.tmod lines 2 ≠ 0 then incInt64 lines else lines).toNat = 0 := by
    rw [hinc]
    split <;> omega
  simp only [NewMainBus, h0, allocLanes]

/-- Witness for C9 at requested lane count -3 and capacity -7. -/
theorem C9_negative_lines_witness :
    NewMainBus Unit iron (-3) (-7) = .ok ⟨iron, []⟩ :=
  C9_negative_lines Unit iron (-3) (-7) (by decide)

/-! ### Consumption and send lemmas -/

theorem Consume_closed (α : Type) (buf : List (Event α)) (cp : Nat) :
    Consume (buf.length + 1) ⟨cp, buf, true⟩ = some buf := by
  induction buf with
  | nil => rfl
  | cons e rest ih =>
    have hstep : Consume ((e :: rest).length + 1) (⟨cp, e :: rest, true⟩ : Conveyor α)
        = (Consume (rest.length + 1) ⟨cp, rest, true⟩).map (fun out => e :: out) := rfl
    rw [hstep, ih]
    rfl

theorem Consume_some (α : Type) (fuel : Nat) :
    ∀ (d : Conveyor α) (out : List (Event α)),
      Consume fuel d = some out → d.closed = true ∧ out = d.buf := by
  induction fuel with
  | zero => intro d out h; simp [Consume] at h
  | succ fuel ih =>
    intro d out h
    rcases hb : d.buf with _ | ⟨e, rest⟩
    · rw [Consume, hb] at h
      cases hcl : d.closed <;> rw [hcl] at h <;> simp at h
      exact ⟨rfl, by simp_all⟩
    · rw [Consume, hb] at h
      obtain ⟨out2, h2, rfl⟩ := Option.map_eq_some'.mp h
      obtain ⟨hcl, hout⟩ := ih _ _ h2
      refine ⟨hcl, ?_⟩
      simp [hb, hout]

/-- Claim C2: after Close, every item enqueued into a lane before the
close is still delivered, in order, to that lane's consumer (the Consume
output is exactly the buffered list), and the Consume loop terminates
(returns) exactly when its lane is closed and fully drained; close
discards no buffered items. -/
theorem C2_drain_before_terminate (α : Type) (bus : MainBus α) (i : Nat)
    (c : Conveyor α) (h : bus.Conveyors[i]? = some c) :
    (Close bus).Conveyors[i]? = some (closeChan c) ∧
    Consume (c.buf.length + 1) (closeChan c) = some c.buf ∧
    (∀ (d : Conveyor α) (fuel : Nat) (out : List (Event α)),
        Consume fuel d = some out → d.closed = true ∧ out = d.buf) ∧
    (∀ d : Conveyor α, d.closed = true → Consume (d.buf.length + 1) d = some d.buf) := by
  refine ⟨?_, ?_, fun d fuel out hf => Consume_some α fuel d out hf, ?_⟩
  · simp [Close, List.getElem?_map, h]
  · rcases c with ⟨cp, buf, cl⟩
    simpa [closeChan] using Consume_closed α buf cp
  · intro d hd
    rcases d with ⟨cp, buf, cl⟩
    cases hd
    exact Consume_closed α buf cp

/-- A concrete event used by the witnesses. -/
def evU : Event Unit := ⟨0, iron, (), 0⟩

/-- A second concrete event used by the witnesses. -/
def evU1 : Event Unit := ⟨1, iron, (), 1⟩

/-- Witness for C2: a one-lane bus whose lane holds one buffered event. -/
theorem C2_drain_before_terminate_witness :
    (Close ⟨iron, [⟨2, [evU], false⟩]⟩).Conveyors[0]? = some (closeChan ⟨2, [evU], false⟩) ∧
    Consume ((⟨2, [evU], false⟩ : Conveyor Unit).buf.length + 1) (closeChan ⟨2, [evU], false⟩)
      = some (⟨2, [evU], false⟩ : Conveyor Unit).buf ∧
    (∀ (d : Conveyor Unit) (fuel : Nat) (out : List (Event Unit)),
        Consume fuel d = some out → d.closed = true ∧ out = d.buf) ∧
    (∀ d : Conveyor Unit, d.closed = true → Consume (d.buf.length + 1) d = some d.buf) :=
  C2_drain_before_terminate Unit ⟨iron, [⟨2, [evU], false⟩]⟩ 0 ⟨2, [evU], false⟩ rfl

theorem sendList_ok (α : Type) (evs : List (Event α)) :
    ∀ (c c2 : Conveyor α), sendList evs c = .ok c2 →
      c2.cap = c.cap ∧ c2.buf = c.buf ++ evs ∧ c2.closed = c.closed := by
  induction evs with
  | nil => intro c c2 h; simp [sendList] at h; simp [h]
  | cons ev rest ih =>
    intro c c2 h
    rw [sendList] at h
    cases hcl : c.closed
    · by_cases hlen : c.buf.length < c.cap
      · rw [send, hcl] at h
        simp only [Bool.false_eq_true, if_false, if_pos hlen] at h
        obtain ⟨h1, h2, h3⟩ := ih _ _ h
        refine ⟨h1, ?_, by rw [h3]⟩
        simpa using h2
      · rw [send, hcl] at h
        simp only [Bool.false_eq_true, if_false, if_neg hlen] at h
        cases h
    · rw [send, hcl] at h
      simp only [if_pos] at h
      cases h

theorem sendList_fits (α : Type) (evs : List (Event α)) :
    ∀ c : Conveyor α, c.closed = false → c.buf.length + evs.length ≤ c.cap →
      sendList evs c = .ok ⟨c.cap, c.buf ++ evs, false⟩ := by
  induction evs with
  | nil => intro c hcl hle; rcases c with ⟨cp, buf, cl⟩; cases hcl; simp [sendList]
  | cons ev rest ih =>
    intro c hcl hle
    have hle2 : c.buf.length + rest.length + 1 ≤ c.cap := by simpa using hle
    have hlen : c.buf.length < c.cap := by omega
    rw [sendList, send, hcl]
    simp only [Bool.false_eq_true, if_false, if_pos hlen]
    have := ih ⟨c.cap, c.buf ++ [ev], false⟩ rfl (by simp; omega)
    simpa using this

/-- Claim C3: strict FIFO within one lane: a sequence of sends into one
lane that all complete leaves the lane holding exactly that sequence, and
once the lane is closed its consumer delivers the items in exactly the
production order. -/
theorem C3_fifo_per_lane (α : Type) (evs : List (Event α)) (c c2 : Conveyor α)
    (h0 : c.buf = []) (h : sendList evs c = .ok c2) :
    Consume (evs.length + 1) (closeChan c2) = some evs := by
  obtain ⟨hcap, hbuf, hcl⟩ := sendList_ok α evs c c2 h
  rw [h0] at hbuf
  simp only [List.nil_append] at hbuf
  rcases c2 with ⟨cp2, buf2, cl2⟩
  simp only at hbuf
  simpa [closeChan, ← hbuf] using Consume_closed α buf2 cp2

/-- Witness for C3: two events sent into an empty lane of capacity 5. -/
theorem C3_fifo_per_lane_witness :
    Consume ([evU, evU1].length + 1) (closeChan ⟨5, [evU, evU1], false⟩) = some [evU, evU1] :=
  C3_fifo_per_lane Unit [evU, evU1] ⟨5, [], false⟩ ⟨5, [evU, evU1], false⟩ rfl (by decide)

/-- Claim C7: capacity back-pressure: filling a lane of capacity C with C
items succeeds, the send of the (C+1)th item blocks (the producer
suspends), and after a consumer removes one item the blocked send can
complete. -/
theorem C7_backpressure (α : Type) (cp : Nat) (evs : List (Event α)) (ev : Event α)
    (h : evs.length = cp) :
    sendList evs ⟨cp, [], false⟩ = .ok ⟨cp, evs, false⟩ ∧
    send ev ⟨cp, evs, false⟩ = .blocked ∧
    ∀ (e : Event α) (rest : List (Event α)), evs = e :: rest →
      recv ⟨cp, evs, false⟩ = some (e, ⟨cp, rest, false⟩) ∧
      send ev ⟨cp, rest, false⟩ = .ok ⟨cp, rest ++ [ev], false⟩ := by
  refine ⟨?_, ?_, ?_⟩
  · simpa using sendList_fits α evs ⟨cp, [], false⟩ rfl (by simp [h])
  · rw [send]
    simp [h]
  · rintro e rest rfl
    refine ⟨by simp [recv], ?_⟩
    rw [send]
    have : rest.length < cp := by simp at h; omega
    simp [this]

/-- Witness for C7 at capacity 2 with two buffered events. -/
theorem C7_backpressure_witness :
    sendList [evU, evU1] ⟨2, [], false⟩ = .ok ⟨2, [evU, evU1], false⟩ ∧
    send evU ⟨2, [evU, evU1], false⟩ = .blocked ∧
    ∀ (e : Event Unit) (rest : List (Event Unit)), [evU, evU1] = e :: rest →
      recv ⟨2, [evU, evU1], false⟩ = some (e, ⟨2, rest, false⟩) ∧
      send evU ⟨2, rest, false⟩ = .ok ⟨2, rest ++ [evU], false⟩ :=
  C7_backpressure Unit 2 [evU, evU1] evU rfl

/-! ### Produce lemmas -/

theorem getD_map_closeChan (α : Type) (l : List (Conveyor α)) (idx : Nat)
    (d : Conveyor α) (h : idx < l.length) :
    (l.map closeChan).getD idx d = closeChan (l.getD idx d) := by
  rw [List.getD_eq_getElem?_getD, List.getD_eq_getElem?_getD, List.getElem?_map,
    List.getElem?_eq_getElem h]
  rfl

/-- Amended claim C5: calling Produce on a bus after its lanes have been
closed is a fatal panic (never a silent drop), whose diagnostic is the Go
runtime's generic "send on closed channel" message. -/
theorem C5_produce_after_close (α : Type) (bus : MainBus α) (r : Nat) (ev : Event α)
    (h : bus.Conveyors ≠ []) :
    Produce (Close bus) r ev = .panicked sendOnClosedMsg := by
  have hlen : (Close bus).Conveyors = bus.Conveyors.map closeChan := rfl
  have hpos : 0 < bus.Conveyors.length := List.length_pos.mpr h
  have hne : ¬((Close bus).Conveyors.length = 0) := by
    rw [hlen, List.length_map]; omega
  rw [Produce, if_neg hne]
  have hidx : pickLane (Close bus).Conveyors.length r < bus.Conveyors.length := by
    rw [hlen, List.length_map]
    exact Nat.mod_lt r hpos
  rw [hlen, List.length_map] at hidx ⊢
  rw [getD_map_closeChan α bus.Conveyors _ _ hidx]
  rw [send]
  simp [closeChan]

/-- Witness for C5 (amended) at a two-lane bus named "iron". -/
theorem C5_produce_after_close_witness :
    Produce (Close ⟨iron, [⟨1, [], false⟩, ⟨1, [], false⟩]⟩) 0 evU
      = .panicked sendOnClosedMsg :=
  C5_produce_after_close Unit ⟨iron, [⟨1, [], false⟩, ⟨1, [], false⟩]⟩ 0 evU (by decide)

/-- Counterexample for claim C5 as stated: the panic raised by a
produce-after-close carries the same diagnostic for two buses with
different resource names, and the resource name "iron" does not occur in
that diagnostic at all, so the fatal diagnostic does not identify the
bus's resource name or the operation attempted. -/
theorem C5_diagnostic_counterexample :
    Produce (Close (getBus (NewMainBus Unit iron 2 1))) 0 evU = .panicked sendOnClosedMsg ∧
    Produce (Close (getBus (NewMainBus Unit copper 2 1))) 0 evU = .panicked sendOnClosedMsg ∧
    (getBus (NewMainBus Unit iron 2 1)).Resource ≠ (getBus (NewMainBus Unit copper 2 1)).Resource ∧
    ¬ ∃ pre post : String, sendOnClosedMsg = pre ++ iron ++ post := by
  refine ⟨by decide, by decide, by decide, ?_⟩
  rintro ⟨pre, post, hmsg⟩
  have hdata : sendOnClosedMsg.data = (pre.data ++ iron.data) ++ post.data := by
    rw [hmsg, String.data_append, String.data_append]
  have hmem : ('i' : Char) ∈ sendOnClosedMsg.data := by
    rw [hdata]
    exact List.mem_append.mpr (Or.inl (List.mem_append.mpr (Or.inr (by decide))))
  exact absurd hmem (by decide)

/-- Claim C6: on a bus with zero lanes, every sequence of Produce calls
returns immediately as a silent no-op: no error, no panic, no blocking,
and the bus (hence every lane, of which there are none) is unchanged, so
nothing is ever delivered to any consumer. -/
theorem C6_zero_lane_noop (α : Type) (bus : MainBus α) (h : bus.Conveyors = [])
    (l : List (Nat × Event α)) :
    produceSeq bus l = .ok bus := by
  induction l with
  | nil => rfl
  | cons p rest ih =>
    rcases p with ⟨r, ev⟩
    have hp : Produce bus r ev = .ok bus := by
      rw [Produce, if_pos (by rw [h]; rfl)]
    rw [produceSeq, hp]
    exact ih

/-- Witness for C6: two Produce calls on a zero-lane bus. -/
theorem C6_zero_lane_noop_witness :
    produceSeq (⟨iron, []⟩ : MainBus Unit) [(0, evU), (5, evU1)] = .ok ⟨iron, []⟩ :=
  C6_zero_lane_noop Unit ⟨iron, []⟩ rfl [(0, evU), (5, evU1)]

theorem pickLane_equidistributed (n k i : Nat) (hi : i < n) :
    ((Finset.range (n * k)).filter (fun s => pickLane n s = i)).card = k := by
  have hn : 0 < n := lt_of_le_of_lt (Nat.zero_le i) hi
  have himg : (Finset.range (n * k)).filter (fun s => pickLane n s = i)
      = (Finset.range k).image (fun j => n * j + i) := by
    ext s
    simp only [Finset.mem_filter, Finset.mem_range, Finset.mem_image, pickLane]
    constructor
    · rintro ⟨hlt, hmod⟩
      refine ⟨s / n, ?_, ?_⟩
      · exact (Nat.div_lt_iff_lt_mul hn).mpr (by rw [mul_comm]; exact hlt)
      · rw [← hmod]
        exact Nat.div_add_mod s n
    · rintro ⟨j, hj, rfl⟩
      refine ⟨?_, ?_⟩
      · calc n * j + i < n * (j + 1) := by rw [Nat.mul_succ]; omega
          _ ≤ n * k := Nat.mul_le_mul_left n hj
      · rw [add_comm, Nat.add_mul_mod_self_left]
        exact Nat.mod_eq_of_lt hi
  rw [himg, Finset.card_image_of_injective _
    (fun a b hab => Nat.eq_of_mul_eq_mul_left hn (by omega)), Finset.card_range]

/-- Claim C8: on a bus with at least one lane, the lane index Produce
selects is always in bounds (it never faults); every lane is a possible
target (the oracle is surjective onto the lane indices); and over any
window of n*k consecutive oracle values each lane is selected exactly k
times (the uniform-distribution content of the random selection, with
math/rand.Intn modelled as an oracle reduced modulo the lane count). -/
theorem C8_lane_selection (α : Type) (bus : MainBus α) (r : Nat)
    (h : bus.Conveyors ≠ []) :
    pickLane bus.Conveyors.length r < bus.Conveyors.length ∧
    (∀ i, i < bus.Conveyors.length → ∃ s, pickLane bus.Conveyors.length s = i) ∧
    ∀ (k i : Nat), i < bus.Conveyors.length →
      ((Finset.range (bus.Conveyors.length * k)).filter
        (fun s => pickLane bus.Conveyors.length s = i)).card = k := by
  have hpos : 0 < bus.Conveyors.length := List.length_pos.mpr h
  refine ⟨Nat.mod_lt r hpos, ?_, ?_⟩
  · intro i hi
    exact ⟨i, Nat.mod_eq_of_lt hi⟩
  · intro k i hi
    exact pickLane_equidistributed bus.Conveyors.length k i hi

/-- Witness for C8 at a two-lane bus and oracle value 5. -/
theorem C8_lane_selection_witness :
    pickLane (⟨iron, [⟨1, [], false⟩, ⟨1, [], false⟩]⟩ : MainBus Unit).Conveyors.length 5
        < (⟨iron, [⟨1, [], false⟩, ⟨1, [], false⟩]⟩ : MainBus Unit).Conveyors.length ∧
    (∀ i, i < (⟨iron, [⟨1, [], false⟩, ⟨1, [], false⟩]⟩ : MainBus Unit).Conveyors.length →
      ∃ s, pickLane (⟨iron, [⟨1, [], false⟩, ⟨1, [], false⟩]⟩ : MainBus Unit).Conveyors.length s = i) ∧
    ∀ (k i : Nat), i < (⟨iron, [⟨1, [], false⟩, ⟨1, [], false⟩]⟩ : MainBus Unit).Conveyors.length →
      ((Finset.range ((⟨iron, [⟨1, [], false⟩, ⟨1, [], false⟩]⟩ : MainBus Unit).Conveyors.length * k)).filter
        (fun s => pickLane (⟨iron, [⟨1, [], false⟩, ⟨1, [], false⟩]⟩ : MainBus Unit).Conveyors.length s = i)).card = k :=
  C8_lane_selection Unit ⟨iron, [⟨1, [], false⟩, ⟨1, [], false⟩]⟩ 5 (by decide)

/-- Claim C10: Produce modifies at most the one lane it selects: when a
Produce call returns, the bus's resource name, its lane count, and every
lane other than the selected one are unchanged. -/
theorem C10_produce_frame (α : Type) (bus : MainBus α) (r : Nat) (ev : Event α)
    (bus2 : MainBus α) (h : Produce bus r ev = .ok bus2) :
    bus2.Resource = bus.Resource ∧
    bus2.Conveyors.length = bus.Conveyors.length ∧
    ∀ j, j ≠ pickLane bus.Conveyors.length r → bus2.Conveyors[j]? = bus.Conveyors[j]? := by
  rw [Produce] at h
  by_cases h0 : bus.Conveyors.length = 0
  · rw [if_pos h0] at h
    cases h
    exact ⟨rfl, rfl, fun j _ => rfl⟩
  · rw [if_neg h0] at h
    rcases hs : send ev (bus.Conveyors.getD (pickLane bus.Conveyors.length r) (dfltConveyor α))
      with c2 | _ | m <;> rw [hs] at h <;> simp only [] at h
    · cases h
      refine ⟨rfl, by simp, ?_⟩
      intro j hj
      rw [List.getElem?_set, if_neg (fun he => hj (Eq.symm he))]
    · cases h
    · cases h

/-- Witness for C10: a two-lane bus where the oracle selects lane 1. -/
theorem C10_produce_frame_witness :
    (⟨iron, [⟨2, [], false⟩, ⟨2, [evU], false⟩]⟩ : MainBus Unit).Resource
      = (⟨iron, [⟨2, [], false⟩, ⟨2, [], false⟩]⟩ : MainBus Unit).Resource ∧
    (⟨iron, [⟨2, [], false⟩, ⟨2, [evU], false⟩]⟩ : MainBus Unit).Conveyors.length
      = (⟨iron, [⟨2, [], false⟩, ⟨2, [], false⟩]⟩ : MainBus Unit).Conveyors.length ∧
    ∀ j, j ≠ pickLane (⟨iron, [⟨2, [], false⟩, ⟨2, [], false⟩]⟩ : MainBus Unit).Conveyors.length 1 →
      (⟨iron, [⟨2, [], false⟩, ⟨2, [evU], false⟩]⟩ : MainBus Unit).Conveyors[j]?
        = (⟨iron, [⟨2, [], false⟩, ⟨2, [], false⟩]⟩ : MainBus Unit).Conveyors[j]? :=
  C10_produce_frame Unit ⟨iron, [⟨2, [], false⟩, ⟨2, [], false⟩]⟩ 1 evU
    ⟨iron, [⟨2, [], false⟩, ⟨2, [evU], false⟩]⟩ (by decide)

/-! ### Delivery accounting for sequences of Produce calls -/

theorem send_ok (α : Type) (ev : Event α) (x c : Conveyor α) (h : send ev x = .ok c) :
    c.cap = x.cap ∧ c.buf = x.buf ++ [ev] ∧ c.closed = x.closed := by
  rw [send] at h
  cases hcl : x.closed <;> rw [hcl] at h
  · by_cases hlen : x.buf.length < x.cap
    · simp only [Bool.false_eq_true, if_false, if_pos hlen] at h
      cases h
      exact ⟨rfl, rfl, rfl⟩
    · simp only [Bool.false_eq_true, if_false, if_neg hlen] at h
      cases h
  · simp only [if_pos] at h
    cases h

theorem getD_set_self (β : Type) (l : List β) (i : Nat) (a d : β) (h : i < l.length) :
    (l.set i a).getD i d = a := by
  rw [List.getD_eq_getElem?_getD, List.getElem?_set, if_pos rfl, if_pos h]
  rfl

theorem getD_set_ne (β : Type) (l : List β) (i j : Nat) (a d : β) (h : i ≠ j) :
    (l.set i a).getD j d = l.getD j d := by
  rw [List.getD_eq_getElem?_getD, List.getElem?_set, if_neg h, ← List.getD_eq_getElem?_getD]

theorem getD_eq_of_lt (β : Type) (l : List β) (i : Nat) (d d2 : β) (h : i < l.length) :
    l.getD i d = l.getD i d2 := by
  rw [List.getD_eq_getElem?_getD, List.getD_eq_getElem?_getD, List.getElem?_eq_getElem h]
  rfl

theorem produceSeq_ok (α : Type) (l : List (Nat × Event α)) :
    ∀ (bus bus2 : MainBus α), produceSeq bus l = .ok bus2 →
      bus2.Resource = bus.Resource ∧
      bus2.Conveyors.length = bus.Conveyors.length ∧
      ∀ (i : Nat) (d : Conveyor α), i < bus.Conveyors.length →
        (bus2.Conveyors.getD i d).buf
          = (bus.Conveyors.getD i d).buf
            ++ (l.filter (fun p => p.1 % bus.Conveyors.length = i)).map (fun p => p.2) := by
  induction l with
  | nil =>
    intro bus bus2 h
    cases h
    exact ⟨rfl, rfl, fun i d _ => by simp⟩
  | cons p rest ih =>
    rcases p with ⟨r, ev⟩
    intro bus bus2 h
    rw [produceSeq] at h
    by_cases h0 : bus.Conveyors.length = 0
    · rw [Produce, if_pos h0] at h
      simp only [] at h
      obtain ⟨h1, h2, _⟩ := ih bus bus2 h
      exact ⟨h1, h2, fun i d hi => absurd hi (by omega)⟩
    · rw [Produce, if_neg h0] at h
      rcases hs : send ev (bus.Conveyors.getD (pickLane bus.Conveyors.length r) (dfltConveyor α))
        with c | _ | m <;> rw [hs] at h <;> simp only [] at h
      · obtain ⟨hcap, hbuf, hcl⟩ :=
          send_ok α ev (bus.Conveyors.getD (pickLane bus.Conveyors.length r) (dfltConveyor α)) c hs
        obtain ⟨h1, h2, h3⟩ := ih _ bus2 h
        simp only [List.length_set] at h2 h3
        refine ⟨h1, h2, ?_⟩
        intro i d hi
        have hidx : pickLane bus.Conveyors.length r < bus.Conveyors.length :=
          Nat.mod_lt r (Nat.pos_of_ne_zero h0)
        by_cases hie : pickLane bus.Conveyors.length r = i
        · have hset : ((bus.Conveyors.set (pickLane bus.Conveyors.length r) c).getD i d) = c := by
            rw [← hie]
            exact getD_set_self (Conveyor α) bus.Conveyors _ c d hidx
          have hfil : ((r, ev) :: rest).filter (fun p => p.1 % bus.Conveyors.length = i)
              = (r, ev) :: rest.filter (fun p => p.1 % bus.Conveyors.length = i) := by
            rw [List.filter_cons, if_pos (by simpa [pickLane] using hie)]
          have hdd : bus.Conveyors.getD (pickLane bus.Conveyors.length r) (dfltConveyor α)
              = bus.Conveyors.getD i d := by
            rw [hie]
            exact getD_eq_of_lt (Conveyor α) bus.Conveyors i (dfltConveyor α) d hi
          rw [hfil]
          have h3i := h3 i d hi
          rw [hset] at h3i
          rw [h3i, hbuf, hdd]
          simp
        · have hset : ((bus.Conveyors.set (pickLane bus.Conveyors.length r) c).getD i d)
              = bus.Conveyors.getD i d :=
            getD_set_ne (Conveyor α) bus.Conveyors _ i c d hie
          have hfil : ((r, ev) :: rest).filter (fun p => p.1 % bus.Conveyors.length = i)
              = rest.filter (fun p => p.1 % bus.Conveyors.length = i) := by
            rw [List.filter_cons, if_neg (by simpa [pickLane] using hie)]
          rw [hfil]
          have := h3 i d hi
          rw [hset] at this
          exact this
      · cases h
      · cases h

theorem filterLength_partition (β : Type) (n : Nat) (hn : 0 < n) (l : List (Nat × β)) :
    (∑ i ∈ Finset.range n, (l.filter (fun p => p.1 % n = i)).length) = l.length := by
  induction l with
  | nil => simp
  | cons p t ih =>
    have hmem : p.1 % n ∈ Finset.range n := Finset.mem_range.mpr (Nat.mod_lt _ hn)
    have step : ∀ i ∈ Finset.range n,
        ((p :: t).filter (fun q => q.1 % n = i)).length
          = (if p.1 % n = i then 1 else 0) + (t.filter (fun q => q.1 % n = i)).length := by
      intro i _
      by_cases hpi : p.1 % n = i
      · simp [List.filter_cons, hpi, Nat.add_comm]
      · simp [List.filter_cons, hpi]
    rw [Finset.sum_congr rfl step, Finset.sum_add_distrib, ih]
    have hone : (∑ i ∈ Finset.range n, if p.1 % n = i then 1 else 0) = 1 := by
      rw [Finset.sum_ite_eq, if_pos hmem]
    rw [hone]
    simp [Nat.add_comm]

theorem filterCount_partition (β γ : Type) [DecidableEq γ] (n : Nat) (hn : 0 < n)
    (g : Nat × β → γ) (k : γ) (l : List (Nat × β)) :
    (∑ i ∈ Finset.range n, ((l.filter (fun p => p.1 % n = i)).map g).count k)
      = (l.map g).count k := by
  induction l with
  | nil => simp
  | cons p t ih =>
    have hmem : p.1 % n ∈ Finset.range n := Finset.mem_range.mpr (Nat.mod_lt _ hn)
    have step : ∀ i ∈ Finset.range n,
        (((p :: t).filter (fun q => q.1 % n = i)).map g).count k
          = (if p.1 % n = i then (if g p = k then 1 else 0) else 0)
            + ((t.filter (fun q => q.1 % n = i)).map g).count k := by
      intro i _
      by_cases hpi : p.1 % n = i
      · by_cases hgk : g p = k
        · simp [List.filter_cons, hpi, List.count_cons, hgk, Nat.add_comm]
        · simp [List.filter_cons, hpi, List.count_cons, hgk]
      · simp [List.filter_cons, hpi]
    rw [Finset.sum_congr rfl step, Finset.sum_add_distrib, ih]
    have hone : (∑ i ∈ Finset.range n, if p.1 % n = i then (if g p = k then 1 else 0) else 0)
        = (if g p = k then 1 else 0) := by
      rw [Finset.sum_ite_eq, if_pos hmem]
    rw [hone]
    by_cases hgk : g p = k
    · simp [List.count_cons, hgk, Nat.add_comm]
    · simp [List.count_cons, hgk]

theorem getD_replicate (β : Type) (a d : β) (n i : Nat) (h : i < n) :
    (List.replicate n a).getD i d = a := by
  rw [List.getD_eq_getElem?_getD, List.getElem?_replicate, if_pos h]
  rfl

/-- Claim C4: the scenario of a bus constructed with requested lane count
3 (yielding 4 lanes) and capacity 5: producing 8 items with ids 0..7
(each Produce call completing, each item therefore landing in exactly one
lane) and then closing, each lane's consumer receives exactly that lane's
buffered items, the total received across all consumers is 8, each id
appears exactly once across all lanes, and within each lane ids appear in
strictly increasing production order. -/
theorem C4_scenario_delivery (α : Type) (bus0 busF : MainBus α) (choices : List Nat)
    (items : List (Event α))
    (h0 : NewMainBus α iron 3 5 = .ok bus0)
    (hc : choices.length = 8)
    (hids : items.map Event.ID = (List.range 8).map Int.ofNat)
    (hp : produceSeq bus0 (choices.zip items) = .ok busF) :
    busF.Resource = iron ∧
    busF.Conveyors.length = 4 ∧
    (∀ (i : Nat) (c : Conveyor α), busF.Conveyors[i]? = some c →
        Consume (c.buf.length + 1) (closeChan c) = some c.buf) ∧
    (∑ i ∈ Finset.range 4, (busF.Conveyors.getD i (dfltConveyor α)).buf.length) = 8 ∧
    (∀ k : Nat, k < 8 →
      (∑ i ∈ Finset.range 4,
        ((busF.Conveyors.getD i (dfltConveyor α)).buf.map Event.ID).count (Int.ofNat k)) = 1) ∧
    (∀ i : Nat, i < 4 →
      ((busF.Conveyors.getD i (dfltConveyor α)).buf.map Event.ID).Pairwise
        (fun a b => a < b)) := by
  have he := NewMainBus_eq α iron 3 5 (by decide) (by decide)
  have harg : (if Int.tmod (3 : Int) 2 ≠ 0 then incInt64 3 else 3).toNat = 4 := by decide
  rw [harg, h0] at he
  cases he
  obtain ⟨hres, hlen, hbuf⟩ := produceSeq_ok α (choices.zip items) _ busF hp
  simp only [List.length_replicate] at hres hlen hbuf
  have hitems : items.length = 8 := by
    have := congrArg List.length hids
    simpa using this
  have hzlen : (choices.zip items).length = 8 := by
    rw [List.length_zip, hc, hitems]
    rfl
  have hmapsnd : (choices.zip items).map Prod.snd = items :=
    List.map_snd_zip choices items (by omega)
  have hzip_ids : (choices.zip items).map (fun p => p.2.ID) = (List.range 8).map Int.ofNat := by
    have hcomp : (fun p : Nat × Event α => p.2.ID) = Event.ID ∘ Prod.snd := rfl
    rw [hcomp, ← List.map_map, hmapsnd, hids]
  have hbufc : ∀ i : Nat, i < 4 → (busF.Conveyors.getD i (dfltConveyor α)).buf
      = ((choices.zip items).filter (fun p => p.1 % 4 = i)).map (fun p => p.2) := by
    intro i hi
    have hb := hbuf i (dfltConveyor α) hi
    rw [getD_replicate (Conveyor α) ⟨Int.toNat 5, [], false⟩ (dfltConveyor α) 4 i hi] at hb
    simpa using hb
  have hpair8 : ((List.range 8).map Int.ofNat).Pairwise (fun a b : Int => a < b) :=
    List.Pairwise.map Int.ofNat (fun a b hab => Int.ofNat_lt.mpr hab) (List.pairwise_lt_range 8)
  have hnodup8 : ((List.range 8).map Int.ofNat).Nodup :=
    List.Nodup.map (fun a b hab => Int.ofNat.inj hab) (List.nodup_range 8)
  refine ⟨hres, hlen, ?_, ?_, ?_, ?_⟩
  · intro i c hic
    rcases c with ⟨cp, bf, cl⟩
    simpa [closeChan] using Consume_closed α bf cp
  · have hstep : ∀ i ∈ Finset.range 4,
        (busF.Conveyors.getD i (dfltConveyor α)).buf.length
          = ((choices.zip items).filter (fun p => p.1 % 4 = i)).length := by
      intro i hi
      rw [hbufc i (Finset.mem_range.mp hi), List.length_map]
    rw [Finset.sum_congr rfl hstep,
      filterLength_partition (Event α) 4 (by omega) (choices.zip items), hzlen]
  · intro k hk
    have hstep : ∀ i ∈ Finset.range 4,
        ((busF.Conveyors.getD i (dfltConveyor α)).buf.map Event.ID).count (Int.ofNat k)
          = (((choices.zip items).filter (fun p => p.1 % 4 = i)).map
              (fun p => p.2.ID)).count (Int.ofNat k) := by
      intro i hi
      rw [hbufc i (Finset.mem_range.mp hi), List.map_map]
      rfl
    rw [Finset.sum_congr rfl hstep,
      filterCount_partition (Event α) Int 4 (by omega) (fun p => p.2.ID) (Int.ofNat k)
        (choices.zip items),
      hzip_ids]
    exact List.count_eq_one_of_mem hnodup8
      (List.mem_map_of_mem Int.ofNat (List.mem_range.mpr hk))
  · intro i hi
    rw [hbufc i hi, List.map_map]
    have hsub : (((choices.zip items).filter (fun p => p.1 % 4 = i)).map
          (Event.ID ∘ (fun p : Nat × Event α => p.2))).Sublist
        ((choices.zip items).map (Event.ID ∘ (fun p : Nat × Event α => p.2))) :=
      List.Sublist.map _ (List.filter_sublist (choices.zip items))
    have hall : ((choices.zip items).map (Event.ID ∘ (fun p : Nat × Event α => p.2))).Pairwise
        (fun a b : Int => a < b) := by
      have : (Event.ID ∘ (fun p : Nat × Event α => p.2)) = (fun p : Nat × Event α => p.2.ID) := rfl
      rw [this, hzip_ids]
      exact hpair8
    exact hall.sublist hsub

/-- Concrete items with ids 0..7 for the C4 witness. -/
def demoItems : List (Event Unit) :=
  [⟨0, iron, (), 0⟩, ⟨1, iron, (), 1⟩, ⟨2, iron, (), 2⟩, ⟨3, iron, (), 3⟩,
   ⟨4, iron, (), 4⟩, ⟨5, iron, (), 5⟩, ⟨6, iron, (), 6⟩, ⟨7, iron, (), 7⟩]

/-- Concrete oracle values routing the demo items round the lanes. -/
def demoChoices : List Nat := [0, 1, 2, 3, 0, 1, 2, 3]

/-- The bus NewMainBus iron 3 5 constructs. -/
def demoBus0 : MainBus Unit :=
  ⟨iron, [⟨5, [], false⟩, ⟨5, [], false⟩, ⟨5, [], false⟩, ⟨5, [], false⟩]⟩

/-- The bus state after producing the eight demo items. -/
def demoBusF : MainBus Unit :=
  ⟨iron,
   [⟨5, [⟨0, iron, (), 0⟩, ⟨4, iron, (), 4⟩], false⟩,
    ⟨5, [⟨1, iron, (), 1⟩, ⟨5, iron, (), 5⟩], false⟩,
    ⟨5, [⟨2, iron, (), 2⟩, ⟨6, iron, (), 6⟩], false⟩,
    ⟨5, [⟨3, iron, (), 3⟩, ⟨7, iron, (), 7⟩], false⟩]⟩

/-- Witness for C4: the scenario run on eight concrete items. -/
theorem C4_scenario_delivery_witness :
    demoBusF.Resource = iron ∧
    demoBusF.Conveyors.length = 4 ∧
    (∀ (i : Nat) (c : Conveyor Unit), demoBusF.Conveyors[i]? = some c →
        Consume (c.buf.length + 1) (closeChan c) = some c.buf) ∧
    (∑ i ∈ Finset.range 4, (demoBusF.Conveyors.getD i (dfltConveyor Unit)).buf.length) = 8 ∧
    (∀ k : Nat, k < 8 →
      (∑ i ∈ Finset.range 4,
        ((demoBusF.Conveyors.getD i (dfltConveyor Unit)).buf.map Event.ID).count (Int.ofNat k)) = 1) ∧
    (∀ i : Nat, i < 4 →
      ((demoBusF.Conveyors.getD i (dfltConveyor Unit)).buf.map Event.ID).Pairwise
        (fun a b => a < b)) :=
  C4_scenario_delivery Unit demoBus0 demoBusF demoChoices demoItems
    rfl rfl (by decide) (by decide)

end MainBusGo
